import Mathlib

/-!
Verification of the toroidal Game-of-Life engine in src/perf.cpp.

The embedding follows the source: `floor_modulo` is the function at
perf.cpp:13-15, called with an `int64_t` dividend and a `std::size_t`
divisor, so by the usual arithmetic conversions every operation is
performed in unsigned 64-bit arithmetic (the dividend is first reduced
modulo 2^64).  `GameBoard` models `GameBoard<W,H>` with its flat
`std::array<bool, W*H>` as a `List Bool`; `iterate_board`, `make_indexes`,
`add_glider` and the step rule follow perf.cpp:88-142.
-/

namespace Perf

/-- The number of values of `std::size_t`: 2^64. -/
def SIZE_T_CARD : Nat := 2 ^ 64

/-- C++ conversion of a signed integer to `std::size_t`: reduction modulo 2^64
(this is what happens to `dividend` in `floor_modulo` when `divisor` has type
`std::size_t`). -/
def toSizeT (k : Int) : Nat := (k % (SIZE_T_CARD : Int)).toNat

/-- `floor_modulo` from perf.cpp:13-15, `((dividend % divisor) + divisor) % divisor`,
at the types at which the program instantiates it: `dividend` is an `int64_t`
coordinate, `divisor` is a `std::size_t` board dimension, so `%` and `+` are
computed in `std::size_t` (unsigned, modulo 2^64) after converting the dividend. -/
def floor_modulo (dividend : Int) (divisor : Nat) : Nat :=
  (toSizeT dividend % divisor + divisor) % SIZE_T_CARD % divisor

/-- `GameBoard::Point` (perf.cpp:48-55): a pair of `int64_t` coordinates. -/
structure Point where
  x : Int
  y : Int
  deriving DecidableEq, Repr

/-- `Point::operator+` (perf.cpp:51-54): componentwise addition. -/
def Point.add (p q : Point) : Point := ⟨p.x + q.x, p.y + q.y⟩

/-- The 8 neighbor offsets (perf.cpp:58-61), in source order. -/
def neighbors : List Point :=
  [⟨-1, 0⟩, ⟨1, 0⟩, ⟨-1, -1⟩, ⟨0, -1⟩, ⟨1, -1⟩, ⟨-1, 1⟩, ⟨0, 1⟩, ⟨1, 1⟩]

/-- `GameBoard<W,H>` (perf.cpp:36-46): the template dimensions and the flat
row-major `std::array<bool, W*H>` backing storage. -/
structure GameBoard where
  width : Nat
  height : Nat
  data : List Bool
  deriving DecidableEq, Repr

/-- `GameBoard::index` (perf.cpp:66-69): wrap both components with
`floor_modulo` and map to the linear address, computed in `std::size_t`. -/
def GameBoard.index (w h : Nat) (p : Point) : Nat :=
  (floor_modulo p.y h * w + floor_modulo p.x w) % SIZE_T_CARD

/-- `GameBoard::operator[]` (perf.cpp:71-73): read the cell at the wrapped
linear index. -/
def GameBoard.get (b : GameBoard) (p : Point) : Bool :=
  b.data.getD (GameBoard.index b.width b.height p) false

/-- `GameBoard::set` (perf.cpp:75): mark the cell at the wrapped linear index
alive. -/
def GameBoard.set (b : GameBoard) (p : Point) : GameBoard :=
  { b with data := b.data.set (GameBoard.index b.width b.height p) true }

/-- `GameBoard::count_neighbors` (perf.cpp:77-83): count the live cells among
the 8 neighbor offsets applied to `p`. -/
def GameBoard.count_neighbors (b : GameBoard) (p : Point) : Nat :=
  neighbors.countP (fun q => b.get (p.add q))

/-- `GameBoard::make_indexes` (perf.cpp:88-100): all coordinates of the board,
written in row-major order (outer loop over `y`, inner loop over `x`). -/
def GameBoard.make_indexes (w h : Nat) : List Point :=
  (List.range h).flatMap
    (fun y : Nat => (List.range w).map (fun x : Nat => (⟨(x : Int), (y : Int)⟩ : Point)))

/-- `GameBoard::add_glider` (perf.cpp:105-111): five `set` calls at the glider
offsets from the anchor. -/
def GameBoard.add_glider (b : GameBoard) (p : Point) : GameBoard :=
  ((((b.set p).set (p.add ⟨1, 1⟩)).set (p.add ⟨2, 1⟩)).set (p.add ⟨0, 2⟩)).set
    (p.add ⟨1, 2⟩)

/-- The branch structure of the `rules` lambda (perf.cpp:118-139) as a pure
function of the two values it computes: current liveness and live-neighbor
count.  The trailing `return true` of the lambda is unreachable and has no
counterpart. -/
def nextState (is_alive : Bool) (neighbor_count : Nat) : Bool :=
  if is_alive then
    if neighbor_count < 2 then false
    else if neighbor_count ≤ 3 then true
    else false
  else
    if neighbor_count == 3 then true
    else false

/-- The `rules` lambda of `iterate_board` (perf.cpp:118-139): computes the
neighbor count and liveness of the cell in `input` and applies the transition
rule. -/
def rules (input : GameBoard) (p : Point) : Bool :=
  nextState (input.get p) (input.count_neighbors p)

/-- `iterate_board` (perf.cpp:114-142): `std::transform` writes
`rules(indices[i])` into `output.data[i]` for every `i`; since `indices` has
exactly `W*H` entries, `output`'s storage is fully overwritten. -/
def iterate_board (input output : GameBoard) : GameBoard :=
  { output with data := (GameBoard.make_indexes input.width input.height).map (rules input) }

/-- A freshly value-initialized board (`std::make_unique<board_type>()`,
perf.cpp:153,156): every cell dead. -/
def deadBoard (w h : Nat) : GameBoard :=
  ⟨w, h, List.replicate (w * h) false⟩

/-- The iteration loop of `run_board` (perf.cpp:161-165): step from `b1` into
`b2`, then swap the two buffers. -/
def runLoop : GameBoard → GameBoard → Nat → GameBoard
  | b1, _, 0 => b1
  | b1, b2, n + 1 => runLoop (iterate_board b1 b2) b1 n

/-- Running the simulation for `iterations` steps from `b`, with a fresh
all-dead second buffer, as `run_board` (perf.cpp:144-171) does. -/
def run (b : GameBoard) (iterations : Nat) : GameBoard :=
  runLoop b (deadBoard b.width b.height) iterations

/-- Evaluation aid (not part of the source model): the cells of a flat
boolean storage packed into a natural number, bit `i` holding slot `i`.
Used only to compute concrete board evolutions efficiently; the bridge to
the model is the proved lemma `getD_eq_testBit`. -/
def encodeBits : List Bool → Nat
  | [] => 0
  | b :: t => (if b then 1 else 0) + 2 * encodeBits t

/-- Evaluation aid (not part of the source model): the storage produced by
one `iterate_board` step, computed from the bit-packed current storage `e`
instead of the boolean list.  `step_data_eq` proves it equal to the data
written by `iterate_board`. -/
def fastStepData (w h e : Nat) : List Bool :=
  (GameBoard.make_indexes w h).map
    (fun p => nextState (e.testBit (GameBoard.index w h p))
      (neighbors.countP (fun q => e.testBit (GameBoard.index w h (p.add q)))))

/-! Helper lemmas (not claim theorems). -/

theorem toSizeT_coe (n : Nat) (hn : n < SIZE_T_CARD) : toSizeT (n : Int) = n := by
  unfold toSizeT
  rw [Int.emod_eq_of_lt (Int.natCast_nonneg n) (by exact_mod_cast hn)]
  exact Int.toNat_natCast n

theorem floor_modulo_coe_eq_self {k m : Nat} (hk : k < m) (hs : k + m < SIZE_T_CARD) :
    floor_modulo (k : Int) m = k := by
  unfold floor_modulo
  rw [toSizeT_coe k (by omega), Nat.mod_eq_of_lt hk, Nat.mod_eq_of_lt hs,
    Nat.add_mod_right, Nat.mod_eq_of_lt hk]

theorem make_indexes_eq_map_range (w h : Nat) :
    GameBoard.make_indexes w h =
      (List.range (h * w)).map
        (fun i => ⟨((i % w : Nat) : Int), ((i / w : Nat) : Int)⟩) := by
  induction h with
  | zero => simp [GameBoard.make_indexes]
  | succ k ih =>
    have hr : (k + 1) * w = k * w + w := by ring
    rw [GameBoard.make_indexes, List.range_succ, List.flatMap_append, List.flatMap_cons,
      List.flatMap_nil, List.append_nil, hr, List.range_add, List.map_append, List.map_map]
    refine congrArg₂ (· ++ ·) ih ?_
    apply List.map_congr_left
    intro x hx
    have hxw : x < w := List.mem_range.mp hx
    have h1 : (k * w + x) % w = x := by
      rw [Nat.add_comm, Nat.add_mul_mod_self_right, Nat.mod_eq_of_lt hxw]
    have h2 : (k * w + x) / w = x / w + k := by
      rw [Nat.add_comm, Nat.mul_comm, Nat.add_mul_div_left x k (by omega : 0 < w)]
    show (⟨(x : Int), (k : Int)⟩ : Point) =
      ⟨(((k * w + x) % w : Nat) : Int), (((k * w + x) / w : Nat) : Int)⟩
    rw [h1, h2, Nat.div_eq_of_lt hxw, Nat.zero_add]

theorem make_indexes_length (w h : Nat) : (GameBoard.make_indexes w h).length = w * h := by
  rw [make_indexes_eq_map_range, List.length_map, List.length_range, Nat.mul_comm]

theorem getD_replicate_false (n i : Nat) : (List.replicate n false).getD i false = false := by
  rcases Nat.lt_or_ge i n with hlt | hge
  · rw [List.getD_eq_getElem _ _ (by simpa using hlt), List.getElem_replicate]
  · exact List.getD_eq_default _ _ (by simpa using hge)

theorem deadBoard_get (w h : Nat) (p : Point) : (deadBoard w h).get p = false :=
  getD_replicate_false (w * h) _

theorem deadBoard_count_neighbors (w h : Nat) (p : Point) :
    (deadBoard w h).count_neighbors p = 0 := by
  unfold GameBoard.count_neighbors
  refine List.countP_eq_zero.mpr ?_
  intro q _
  simp [deadBoard_get]

theorem rules_dead (w h : Nat) (p : Point) : rules (deadBoard w h) p = false := by
  unfold rules
  rw [deadBoard_get, deadBoard_count_neighbors]
  rfl

theorem iterate_board_dead (w h : Nat) (b : GameBoard) :
    iterate_board (deadBoard w h) b = { b with data := List.replicate (w * h) false } := by
  have h1 : (GameBoard.make_indexes w h).map (rules (deadBoard w h)) =
      List.replicate (w * h) false := by
    have h2 : (GameBoard.make_indexes w h).map (rules (deadBoard w h)) =
        (GameBoard.make_indexes w h).map (fun _ => false) :=
      List.map_congr_left (fun p _ => rules_dead w h p)
    rw [h2, List.map_const', make_indexes_length]
  show { b with data := (GameBoard.make_indexes w h).map (rules (deadBoard w h)) } =
    { b with data := List.replicate (w * h) false }
  rw [h1]

theorem getD_set_true (l : List Bool) (i j : Nat) (h : l.getD j false = true) :
    (l.set i true).getD j false = true := by
  by_cases hij : i = j
  · subst hij
    by_cases hil : i < l.length
    · rw [List.getD_eq_getElem _ _ (by simpa using hil), List.getElem_set_self]
    · rw [List.set_eq_of_length_le (by omega)]
      exact h
  · rw [List.getD_eq_getElem?_getD, List.getElem?_set_ne hij, ← List.getD_eq_getElem?_getD]
    exact h

theorem getD_eq_testBit (l : List Bool) (i : Nat) :
    l.getD i false = (encodeBits l).testBit i := by
  induction l generalizing i with
  | nil =>
    show false = Nat.testBit (encodeBits []) i
    rw [show encodeBits [] = 0 from rfl, Nat.zero_testBit]
  | cons b t ih =>
    cases i with
    | zero =>
      show b = (encodeBits (b :: t)).testBit 0
      rw [Nat.testBit_zero, show encodeBits (b :: t) = (if b then 1 else 0) + 2 * encodeBits t from rfl]
      cases b with
      | true => simp [Nat.add_mul_mod_self_left]
      | false => simp [Nat.mul_mod_right]
    | succ j =>
      show t.getD j false = (encodeBits (b :: t)).testBit (j + 1)
      rw [Nat.testBit_succ,
        show encodeBits (b :: t) = (if b then 1 else 0) + 2 * encodeBits t from rfl]
      have hdiv : ((if b then 1 else 0) + 2 * encodeBits t) / 2 = encodeBits t := by
        cases b <;> simp <;> omega
      rw [hdiv]
      exact ih j

theorem step_data_eq (input : GameBoard) :
    (GameBoard.make_indexes input.width input.height).map (rules input) =
      fastStepData input.width input.height (encodeBits input.data) := by
  unfold fastStepData
  apply List.map_congr_left
  intro p _
  unfold rules GameBoard.get GameBoard.count_neighbors
  rw [getD_eq_testBit]
  congr 1
  apply List.countP_congr
  intro q _
  rw [GameBoard.get, getD_eq_testBit]

theorem iterate_board_by_mask (inp out res : GameBoard) (e : Nat)
    (he : encodeBits inp.data = e)
    (hres : GameBoard.mk out.width out.height (fastStepData inp.width inp.height e) = res) :
    iterate_board inp out = res := by
  show GameBoard.mk out.width out.height
    ((GameBoard.make_indexes inp.width inp.height).map (rules inp)) = res
  rw [step_data_eq, he, hres]

/-! Claim theorems. -/

/-- Claim C1 (counter-evidence): with the code's `std::size_t` divisor type,
`floor_modulo (-1) 3` evaluates to `0`, not to `3 - 1 = 2`, and it differs
from `floor_modulo (-1 + 3) 3 = 2`, so neither the shift-periodicity
`wrap(k,m) = wrap(k+m,m)` nor the negative-wraps-to-`m-1` property of the
claim holds at `k = -1`, `m = 3`. -/
theorem floor_modulo_sizet_breaks_wrap :
    floor_modulo (-1) 3 = 0 ∧ floor_modulo (-1 + 3) 3 = 2 := by decide

/-- Claim C3: for every liveness bit and every neighbor count in [0,8], the
rule function returns true iff (alive and count in {2,3}) or (dead and
count = 3) — the exact Game-of-Life table. -/
theorem nextState_is_life_table (a : Bool) (n : Fin 9) :
    nextState a n.val =
      ((a && (n.val == 2 || n.val == 3)) || (!a && n.val == 3)) := by
  revert a n
  decide

/-- Claim C9: running the simulation with iteration count 0 returns the
initial board unchanged. -/
theorem run_zero_iterations (b : GameBoard) : run b 0 = b := rfl

/-- Claim C2 (counter-evidence): on the 3×3 board whose only live cell is at
(0,0), the code's `count_neighbors((0,0))` returns 3, not 0 (the offsets
with a -1 component wrap to column/row 0 instead of 2, so the origin counts
itself three times), and after one step the origin is still alive, so the
board is not all-dead. -/
theorem three_by_three_origin_code_behavior :
    ((deadBoard 3 3).set ⟨0, 0⟩).count_neighbors ⟨0, 0⟩ = 3 ∧
    ((deadBoard 3 3).set ⟨0, 0⟩).count_neighbors ⟨1, 0⟩ = 2 ∧
    (run ((deadBoard 3 3).set ⟨0, 0⟩) 1).get ⟨0, 0⟩ = true := by
  decide

/-- Claim C4: a step writes into slot `i` of the output storage exactly
`nextState` of the input cell at cache position `i` and its input neighbor
count, it overwrites every slot (the output data has exactly
`width*height` entries), and the result does not depend on the output
buffer's prior contents. -/
theorem step_writes_rule_everywhere (input b1 b2 : GameBoard) (i : Nat)
    (hi : i < input.width * input.height) :
    (iterate_board input b1).data.length = input.width * input.height ∧
    (iterate_board input b1).data.getD i false =
      nextState
        (input.get ((GameBoard.make_indexes input.width input.height).getD i ⟨0, 0⟩))
        (input.count_neighbors
          ((GameBoard.make_indexes input.width input.height).getD i ⟨0, 0⟩)) ∧
    (iterate_board input b1).data = (iterate_board input b2).data := by
  have hlen : i < (GameBoard.make_indexes input.width input.height).length := by
    rw [make_indexes_length]
    exact hi
  refine ⟨?_, ?_, rfl⟩
  · show ((GameBoard.make_indexes input.width input.height).map (rules input)).length = _
    rw [List.length_map, make_indexes_length]
  · have hc : (GameBoard.make_indexes input.width input.height).getD i ⟨0, 0⟩ =
        (GameBoard.make_indexes input.width input.height).get ⟨i, hlen⟩ :=
      List.getD_eq_getElem _ _ hlen
    rw [hc]
    show ((GameBoard.make_indexes input.width input.height).map (rules input)).getD i false = _
    rw [List.getD_eq_getElem _ _ (by simpa using hlen), List.getElem_map]
    rfl

/-- Claim C4 witness: the theorem applied to a concrete 2×2 input board, two
distinct output buffers and slot 0. -/
theorem step_writes_rule_everywhere_witness :
    (0 : Nat) < 2 * 2 ∧
    ((iterate_board ⟨2, 2, [true, true, true, false]⟩ ⟨2, 2, [false, false, false, false]⟩).data.length = 2 * 2 ∧
      (iterate_board ⟨2, 2, [true, true, true, false]⟩ ⟨2, 2, [false, false, false, false]⟩).data.getD 0 false =
        nextState
          ((⟨2, 2, [true, true, true, false]⟩ : GameBoard).get ((GameBoard.make_indexes 2 2).getD 0 ⟨0, 0⟩))
          ((⟨2, 2, [true, true, true, false]⟩ : GameBoard).count_neighbors
            ((GameBoard.make_indexes 2 2).getD 0 ⟨0, 0⟩)) ∧
      (iterate_board ⟨2, 2, [true, true, true, false]⟩ ⟨2, 2, [false, false, false, false]⟩).data =
        (iterate_board ⟨2, 2, [true, true, true, false]⟩ ⟨2, 2, [true, true, true, true]⟩).data) :=
  ⟨by decide,
   step_writes_rule_everywhere ⟨2, 2, [true, true, true, false]⟩
     ⟨2, 2, [false, false, false, false]⟩ ⟨2, 2, [true, true, true, true]⟩ 0 (by decide)⟩

/-- Claim C5: for positive dimensions representable in `std::size_t`
arithmetic (each dimension at most 2^63 and `w*h ≤ 2^64`, which every
instantiable `GameBoard<W,H>` satisfies), the index cache has length
`w*h`, contains every in-range coordinate exactly once, is in row-major
order (entry `i` is `(i mod w, i div w)`), and the board's index mapping
sends entry `i` back to `i`. -/
theorem make_indexes_row_major (w h : Nat) (hw : 0 < w) (hh : 0 < h)
    (hw2 : w ≤ 2 ^ 63) (hh2 : h ≤ 2 ^ 63) (hwh : w * h ≤ SIZE_T_CARD) :
    (GameBoard.make_indexes w h).length = w * h ∧
    (∀ x y : Nat, x < w → y < h →
      (GameBoard.make_indexes w h).count ⟨(x : Int), (y : Int)⟩ = 1) ∧
    (∀ i : Nat, i < w * h →
      (GameBoard.make_indexes w h).getD i ⟨0, 0⟩ =
        ⟨((i % w : Nat) : Int), ((i / w : Nat) : Int)⟩ ∧
      GameBoard.index w h ((GameBoard.make_indexes w h).getD i ⟨0, 0⟩) = i) := by
  have hcard : SIZE_T_CARD = 18446744073709551616 := rfl
  have hw2' : w ≤ 9223372036854775808 := by
    have : (2 : Nat) ^ 63 = 9223372036854775808 := by norm_num
    omega
  have hh2' : h ≤ 9223372036854775808 := by
    have : (2 : Nat) ^ 63 = 9223372036854775808 := by norm_num
    omega
  have F_inj : Function.Injective
      (fun i : Nat => (⟨((i % w : Nat) : Int), ((i / w : Nat) : Int)⟩ : Point)) := by
    intro a b hab
    have h1 : a % w = b % w := Nat.cast_inj.mp (congrArg Point.x hab)
    have h2 : a / w = b / w := Nat.cast_inj.mp (congrArg Point.y hab)
    calc a = w * (a / w) + a % w := (Nat.div_add_mod a w).symm
      _ = w * (b / w) + b % w := by rw [h1, h2]
      _ = b := Nat.div_add_mod b w
  refine ⟨make_indexes_length w h, ?_, ?_⟩
  · intro x y hx hy
    have m1 : (y * w + x) % w = x := by
      rw [Nat.add_comm, Nat.add_mul_mod_self_right, Nat.mod_eq_of_lt hx]
    have m2 : (y * w + x) / w = y := by
      rw [Nat.add_comm, Nat.mul_comm, Nat.add_mul_div_left x y hw,
        Nat.div_eq_of_lt hx, Nat.zero_add]
    have key : (⟨(x : Int), (y : Int)⟩ : Point) =
        ⟨(((y * w + x) % w : Nat) : Int), (((y * w + x) / w : Nat) : Int)⟩ := by
      rw [m1, m2]
    have hmem : y * w + x < h * w := by
      have hstep : (y + 1) * w ≤ h * w := Nat.mul_le_mul_right w (Nat.succ_le_of_lt hy)
      rw [Nat.succ_mul] at hstep
      omega
    have hcmap := List.count_map_of_injective (List.range (h * w))
      (fun i : Nat => (⟨((i % w : Nat) : Int), ((i / w : Nat) : Int)⟩ : Point))
      F_inj (y * w + x)
    have hcnt : List.count (y * w + x) (List.range (h * w)) = 1 :=
      List.count_eq_one_of_mem (List.nodup_range _) (List.mem_range.mpr hmem)
    rw [key, make_indexes_eq_map_range]
    exact hcmap.trans hcnt
  · intro i hi
    have hget : (GameBoard.make_indexes w h).getD i ⟨0, 0⟩ =
        ⟨((i % w : Nat) : Int), ((i / w : Nat) : Int)⟩ := by
      rw [make_indexes_eq_map_range]
      have hlen : i < ((List.range (h * w)).map
          (fun i : Nat => (⟨((i % w : Nat) : Int), ((i / w : Nat) : Int)⟩ : Point))).length := by
        rw [List.length_map, List.length_range, Nat.mul_comm]
        exact hi
      rw [List.getD_eq_getElem _ _ hlen, List.getElem_map, List.getElem_range]
    refine ⟨hget, ?_⟩
    rw [hget]
    have hdiv : i / w < h := (Nat.div_lt_iff_lt_mul hw).mpr (by rw [Nat.mul_comm] at hi; exact hi)
    have hmod : i % w < w := Nat.mod_lt _ hw
    have e1 : floor_modulo ((i / w : Nat) : Int) h = i / w :=
      floor_modulo_coe_eq_self hdiv (by omega)
    have e2 : floor_modulo ((i % w : Nat) : Int) w = i % w :=
      floor_modulo_coe_eq_self hmod (by omega)
    show (floor_modulo ((i / w : Nat) : Int) h * w + floor_modulo ((i % w : Nat) : Int) w) %
      SIZE_T_CARD = i
    rw [e1, e2]
    have hsum : i / w * w + i % w = i := by
      rw [Nat.mul_comm]
      exact Nat.div_add_mod i w
    rw [hsum]
    exact Nat.mod_eq_of_lt (by omega)

/-- Claim C5 witness: the theorem applied at width 2, height 3, with the
per-coordinate parts instantiated at the coordinate (1,2) and the cache
slot 5. -/
theorem make_indexes_row_major_witness :
    (GameBoard.make_indexes 2 3).length = 2 * 3 ∧
    (GameBoard.make_indexes 2 3).count ⟨((1 : Nat) : Int), ((2 : Nat) : Int)⟩ = 1 ∧
    (GameBoard.make_indexes 2 3).getD 5 ⟨0, 0⟩ =
      ⟨((5 % 2 : Nat) : Int), ((5 / 2 : Nat) : Int)⟩ ∧
    GameBoard.index 2 3 ((GameBoard.make_indexes 2 3).getD 5 ⟨0, 0⟩) = 5 :=
  ⟨(make_indexes_row_major 2 3 (by decide) (by decide) (by norm_num) (by norm_num)
      (by norm_num [SIZE_T_CARD])).1,
   (make_indexes_row_major 2 3 (by decide) (by decide) (by norm_num) (by norm_num)
      (by norm_num [SIZE_T_CARD])).2.1 1 2 (by decide) (by decide),
   ((make_indexes_row_major 2 3 (by decide) (by decide) (by norm_num) (by norm_num)
      (by norm_num [SIZE_T_CARD])).2.2 5 (by decide)).1,
   ((make_indexes_row_major 2 3 (by decide) (by decide) (by norm_num) (by norm_num)
      (by norm_num [SIZE_T_CARD])).2.2 5 (by decide)).2⟩

/-- Claim C6: for every board with positive dimensions and every integer
coordinate, possibly negative, the computed linear index is strictly below
`width*height`, so every lookup stays inside the backing storage. -/
theorem index_always_in_range (w h : Nat) (x y : Int) (hw : 0 < w) (hh : 0 < h) :
    GameBoard.index w h ⟨x, y⟩ < w * h := by
  have hx : floor_modulo x w < w := Nat.mod_lt _ hw
  have hy : floor_modulo y h < h := Nat.mod_lt _ hh
  have hle : (floor_modulo y h * w + floor_modulo x w) % SIZE_T_CARD ≤
      floor_modulo y h * w + floor_modulo x w := Nat.mod_le _ _
  have hstep : (floor_modulo y h + 1) * w ≤ h * w :=
    Nat.mul_le_mul_right w (Nat.succ_le_of_lt hy)
  rw [Nat.succ_mul] at hstep
  show (floor_modulo y h * w + floor_modulo x w) % SIZE_T_CARD < w * h
  rw [Nat.mul_comm w h]
  omega

/-- Claim C6 witness: the theorem applied to a 3×3 board at the negative
coordinate (-1,-1). -/
theorem index_always_in_range_witness :
    (0 : Nat) < 3 ∧ GameBoard.index 3 3 ⟨-1, -1⟩ < 3 * 3 :=
  ⟨by decide, index_always_in_range 3 3 (-1) (-1) (by decide) (by decide)⟩

/-- Claim C7: an all-dead board of any positive dimensions, run for any
number of iterations, remains all-dead. -/
theorem dead_board_stays_dead (w h n : Nat) (hw : 0 < w) (hh : 0 < h) :
    run (deadBoard w h) n = deadBoard w h := by
  have key : ∀ m : Nat, runLoop (deadBoard w h) (deadBoard w h) m = deadBoard w h := by
    intro m
    induction m with
    | zero => rfl
    | succ k ih =>
      show runLoop (iterate_board (deadBoard w h) (deadBoard w h)) (deadBoard w h) k =
        deadBoard w h
      rw [iterate_board_dead]
      exact ih
  exact key n

/-- Claim C7 witness: the theorem applied to a 2×2 dead board run for 3
iterations. -/
theorem dead_board_stays_dead_witness :
    (0 : Nat) < 2 ∧ run (deadBoard 2 2) 3 = deadBoard 2 2 :=
  ⟨by decide, dead_board_stays_dead 2 2 3 (by decide) (by decide)⟩

/-- Claim C10: `set` is monotone (a cell alive before `set` is alive after),
and consequently `add_glider` never turns a live cell dead. -/
theorem set_is_monotone (b : GameBoard) (p c : Point) :
    (b.get c = true → (b.set p).get c = true) ∧
    (b.get c = true → (b.add_glider p).get c = true) := by
  have mono : ∀ (b2 : GameBoard) (q : Point), b2.get c = true → (b2.set q).get c = true := by
    intro b2 q hb
    exact getD_set_true b2.data _ _ hb
  exact ⟨mono b p,
    fun hb => mono _ _ (mono _ _ (mono _ _ (mono _ _ (mono _ _ hb))))⟩

/-- Claim C10 witness: the theorem applied to a concrete 2×2 board with the
cell (0,0) alive, setting and seeding at (1,1). -/
theorem set_is_monotone_witness :
    (((deadBoard 2 2).set ⟨0, 0⟩).set ⟨1, 1⟩).get ⟨0, 0⟩ = true ∧
    (((deadBoard 2 2).set ⟨0, 0⟩).add_glider ⟨1, 1⟩).get ⟨0, 0⟩ = true :=
  ⟨(set_is_monotone ((deadBoard 2 2).set ⟨0, 0⟩) ⟨1, 1⟩ ⟨0, 0⟩).1 (by decide),
   (set_is_monotone ((deadBoard 2 2).set ⟨0, 0⟩) ⟨1, 1⟩ ⟨0, 0⟩).2 (by decide)⟩

set_option maxRecDepth 10000 in
/-- Claim C8: on a 20×20 board seeded with a single glider at anchor (1,3)
and all other cells dead, after exactly 4 steps the board equals the board
obtained by seeding the same glider at anchor (2,4) on an all-dead board:
the five glider cells reappear shifted by (+1,+1) and every other cell of
the board is dead. -/
theorem glider_translates_after_four_steps :
    run ((deadBoard 20 20).add_glider ⟨1, 3⟩) 4 = (deadBoard 20 20).add_glider ⟨2, 4⟩ := by
  have h1 : iterate_board ((deadBoard 20 20).add_glider ⟨1, 3⟩) (deadBoard 20 20) =
      GameBoard.mk 20 20 (fastStepData 20 20 (2 ^ 61 + 2 ^ 82 + 2 ^ 83 + 2 ^ 101 + 2 ^ 102)) :=
    iterate_board_by_mask _ _ _ (2 ^ 61 + 2 ^ 82 + 2 ^ 83 + 2 ^ 101 + 2 ^ 102)
      (by decide!) rfl
  have h2 : iterate_board
      (GameBoard.mk 20 20 (fastStepData 20 20 (2 ^ 61 + 2 ^ 82 + 2 ^ 83 + 2 ^ 101 + 2 ^ 102)))
      ((deadBoard 20 20).add_glider ⟨1, 3⟩) =
      GameBoard.mk 20 20 (fastStepData 20 20 (2 ^ 62 + 2 ^ 83 + 2 ^ 101 + 2 ^ 102 + 2 ^ 103)) :=
    iterate_board_by_mask _ _ _ (2 ^ 62 + 2 ^ 83 + 2 ^ 101 + 2 ^ 102 + 2 ^ 103)
      (by decide!) rfl
  have h3 : iterate_board
      (GameBoard.mk 20 20 (fastStepData 20 20 (2 ^ 62 + 2 ^ 83 + 2 ^ 101 + 2 ^ 102 + 2 ^ 103)))
      (GameBoard.mk 20 20 (fastStepData 20 20 (2 ^ 61 + 2 ^ 82 + 2 ^ 83 + 2 ^ 101 + 2 ^ 102))) =
      GameBoard.mk 20 20 (fastStepData 20 20 (2 ^ 81 + 2 ^ 83 + 2 ^ 102 + 2 ^ 103 + 2 ^ 122)) :=
    iterate_board_by_mask _ _ _ (2 ^ 81 + 2 ^ 83 + 2 ^ 102 + 2 ^ 103 + 2 ^ 122)
      (by decide!) rfl
  have h4 : iterate_board
      (GameBoard.mk 20 20 (fastStepData 20 20 (2 ^ 81 + 2 ^ 83 + 2 ^ 102 + 2 ^ 103 + 2 ^ 122)))
      (GameBoard.mk 20 20 (fastStepData 20 20 (2 ^ 62 + 2 ^ 83 + 2 ^ 101 + 2 ^ 102 + 2 ^ 103))) =
      GameBoard.mk 20 20 (fastStepData 20 20 (2 ^ 83 + 2 ^ 101 + 2 ^ 103 + 2 ^ 122 + 2 ^ 123)) :=
    iterate_board_by_mask _ _ _ (2 ^ 83 + 2 ^ 101 + 2 ^ 103 + 2 ^ 122 + 2 ^ 123)
      (by decide!) rfl
  show iterate_board
    (iterate_board
      (iterate_board
        (iterate_board ((deadBoard 20 20).add_glider ⟨1, 3⟩) (deadBoard 20 20))
        ((deadBoard 20 20).add_glider ⟨1, 3⟩))
      (iterate_board ((deadBoard 20 20).add_glider ⟨1, 3⟩) (deadBoard 20 20)))
    (iterate_board
      (iterate_board ((deadBoard 20 20).add_glider ⟨1, 3⟩) (deadBoard 20 20))
      ((deadBoard 20 20).add_glider ⟨1, 3⟩)) =
    (deadBoard 20 20).add_glider ⟨2, 4⟩
  rw [h1, h2, h3, h4]
  decide!

end Perf
